import Mathlib

/-!
# The resolve/load plugins of `lib/esbuild.go`

A shallow embedding of `src/lib/esbuild.go`: the three esbuild plugins
(`inlinePlugin`, `sassPlugin`, `blpPlugin`) and `Bundle`, together with the
Go standard-library functions they call (`strings.Replace`,
`strings.TrimSpace`, `path.Join`, `path.Clean`, `filepath.Dir`) and the
regular-expression filters they register.

Go strings are modelled as lists of Unicode code points (`GoString`), that is
as valid UTF-8 text; every byte the modelled functions test for (`/`, `.`,
ASCII white space, the letters of the filters) is ASCII, so on valid UTF-8 the
byte-wise and the rune-wise reading agree.  File paths follow the Unix rules
(separator `/`, no volume name).
-/

namespace Ags

/-- A Go `string` (and a `[]byte` holding text): a sequence of code points. -/
abbrev GoString := List Char

/-! ## package `strings` -/

/-- Go `strings.Index(s, substr)`: index of the first instance of `substr` in
`s`, or `-1`. -/
def stringsIndex (s substr : GoString) : Int :=
  go s 0
where
  /-- Search from offset `i`, `t` being `s[i:]`. -/
  go : GoString → Nat → Int
    | [], i => if substr = [] then (i : Int) else -1
    | c :: cs, i => if substr.isPrefixOf (c :: cs) then (i : Int) else go cs (i + 1)

/-- The loop of Go `strings.Count` for a non-empty `substr`: find the next
instance, count it, continue behind it.  Every round drops at least one code
point, so `len(s) + 1` rounds are never used up. -/
def stringsCountLoop (substr : GoString) : Nat → GoString → Nat → Nat
  | 0, _, n => n
  | fuel + 1, s, n =>
    let i := stringsIndex s substr
    if i = -1 then n
    else stringsCountLoop substr fuel (s.drop (i.toNat + substr.length)) (n + 1)

/-- Go `strings.Count(s, substr)`: the number of non-overlapping instances of
`substr` in `s`; for an empty `substr`, one more than the number of code
points. -/
def stringsCount (s substr : GoString) : Nat :=
  if substr.length = 0 then s.length + 1
  else stringsCountLoop substr (s.length + 1) s 0

/-- The replacement loop of Go `strings.Replace`: `k` replacements are still to
be made in `rest = s[start:]`; `first` is `i == 0`.  The text written so far is
in front of the result. -/
def stringsReplaceLoop (old new : GoString) : Nat → Bool → GoString → GoString
  | 0, _, rest => rest
  | k + 1, first, rest =>
    let j : Nat :=
      if old.length = 0 then (if first then 0 else min 1 rest.length)
      else (stringsIndex rest old).toNat
    rest.take j ++ new ++ stringsReplaceLoop old new k false (rest.drop (j + old.length))

/-- Go `strings.Replace(s, old, new, n)`: a copy of `s` with the first `n`
non-overlapping instances of `old` replaced by `new` (all of them for
`n < 0`). -/
def stringsReplace (s old new : GoString) (n : Int) : GoString :=
  if old = new ∨ n = 0 then s
  else
    let m := stringsCount s old
    if m = 0 then s
    else
      let k : Nat := if n < 0 ∨ (m : Int) < n then m else n.toNat
      stringsReplaceLoop old new k true s

/-- The table `asciiSpace` of package `strings`. -/
def asciiSpace (c : Char) : Bool :=
  c = '\t' || c = '\n' || c = '\x0b' || c = '\x0c' || c = '\r' || c = ' '

/-- Go `unicode.IsSpace`: for Latin-1 the six ASCII space characters, U+0085
and U+00A0; above Latin-1 the code points of the `White_Space` table. -/
def unicodeIsSpace (c : Char) : Bool :=
  let r := c.toNat
  if r ≤ 0xFF then
    r = 0x09 || r = 0x0A || r = 0x0B || r = 0x0C || r = 0x0D || r = 0x20 ||
      r = 0x85 || r = 0xA0
  else
    r = 0x1680 || (0x2000 ≤ r && r ≤ 0x200A) || r = 0x2028 || r = 0x2029 ||
      r = 0x202F || r = 0x205F || r = 0x3000

/-- Go `strings.TrimLeftFunc(s, f)`: `s` without its leading code points that
satisfy `f`. -/
def stringsTrimLeftFunc (s : GoString) (f : Char → Bool) : GoString :=
  s.dropWhile f

/-- Go `strings.TrimRightFunc(s, f)`: `s` without its trailing code points
that satisfy `f`. -/
def stringsTrimRightFunc (s : GoString) (f : Char → Bool) : GoString :=
  s.rdropWhile f

/-- Go `strings.TrimFunc(s, f)`. -/
def stringsTrimFunc (s : GoString) (f : Char → Bool) : GoString :=
  stringsTrimRightFunc (stringsTrimLeftFunc s f) f

/-- The second loop of Go `strings.TrimSpace`, run over the reversal of
`s[start:stop]`: step `stop` down over ASCII space; at a non-ASCII code point
fall back to `TrimRightFunc(s[start:stop], unicode.IsSpace)`. -/
def trimSpaceStop : GoString → GoString
  | [] => []
  | c :: cs =>
    if c.toNat ≥ 0x80 then stringsTrimRightFunc (c :: cs).reverse unicodeIsSpace
    else if asciiSpace c then trimSpaceStop cs
    else (c :: cs).reverse

/-- The first loop of Go `strings.TrimSpace`, run over `s[start:]`: step
`start` up over ASCII space; at a non-ASCII code point fall back to
`TrimFunc(s[start:], unicode.IsSpace)`; then run the second loop. -/
def trimSpaceStart : GoString → GoString
  | [] => trimSpaceStop []
  | c :: cs =>
    if c.toNat ≥ 0x80 then stringsTrimFunc (c :: cs) unicodeIsSpace
    else if asciiSpace c then trimSpaceStart cs
    else trimSpaceStop (c :: cs).reverse

/-- Go `strings.TrimSpace(s)`. -/
def stringsTrimSpace (s : GoString) : GoString :=
  trimSpaceStart s

/-! ## packages `path` and `path/filepath` -/

/-- The inner loop of the `..` case of Go `path.Clean`, on the write index:
`for out.w > dotdot && out.index(out.w) != '/' { out.w-- }`. -/
def cleanBacktrack (buf : GoString) (dotdot : Nat) : Nat → Nat
  | 0 => 0
  | w + 1 =>
    if w + 1 > dotdot ∧ buf.getD (w + 1) '/' ≠ '/' then cleanBacktrack buf dotdot w
    else w + 1

/-- The main loop of Go `path.Clean`.  `rest` is `path[r:]`, `out` the bytes
written so far (`out.w = out.length`), `dotdot` the index where `..` must
stop.  Every round reads at least one byte of `rest`, so `len(path)` rounds
are never used up. -/
def cleanLoop (rooted : Bool) : Nat → GoString → GoString → Nat → GoString
  | 0, _, out, _ => out
  | _ + 1, [], out, _ => out
  | fuel + 1, c :: rest, out, dotdot =>
    if c = '/' then
      -- empty path element
      cleanLoop rooted fuel rest out dotdot
    else if c = '.' ∧ (rest = [] ∨ rest.head? = some '/') then
      -- . element
      cleanLoop rooted fuel rest out dotdot
    else if c = '.' ∧ rest.head? = some '.' ∧
        (rest.tail = [] ∨ rest.tail.head? = some '/') then
      -- .. element: remove to last /
      if out.length > dotdot then
        cleanLoop rooted fuel rest.tail
          (out.take (cleanBacktrack out dotdot (out.length - 1))) dotdot
      else if !rooted then
        let out1 := if out.length > 0 then out ++ ['/'] else out
        let out2 := out1 ++ ['.', '.']
        cleanLoop rooted fuel rest.tail out2 out2.length
      else
        cleanLoop rooted fuel rest.tail out dotdot
    else
      -- real path element: add slash if needed, copy element
      let out1 :=
        if (rooted ∧ out.length ≠ 1) ∨ (!rooted ∧ out.length ≠ 0) then out ++ ['/']
        else out
      cleanLoop rooted fuel ((c :: rest).dropWhile (· ≠ '/'))
        (out1 ++ (c :: rest).takeWhile (· ≠ '/')) dotdot

/-- Go `path.Clean(path)`: the shortest path name equivalent to `path` by
purely lexical processing. -/
def pathClean (path : GoString) : GoString :=
  match path with
  | [] => ['.']
  | c :: _ =>
    let rooted : Bool := c = '/'
    let out :=
      if rooted then cleanLoop rooted path.length (path.drop 1) ['/'] 1
      else cleanLoop rooted path.length path [] 0
    if out.length = 0 then ['.'] else out

/-- The buffer loop of Go `path.Join`: every non-empty element is appended,
separated from what is already there by a slash. -/
def joinBuf : List GoString → GoString → GoString
  | [], buf => buf
  | e :: es, buf =>
    if buf.length > 0 ∨ e ≠ [] then
      joinBuf es ((if buf.length > 0 then buf ++ ['/'] else buf) ++ e)
    else joinBuf es buf

/-- Go `path.Join(elem...)`: the elements joined by slashes, empty ones
ignored, the result cleaned; the empty string when every element is empty. -/
def pathJoin (elem : List GoString) : GoString :=
  if (elem.map List.length).sum = 0 then []
  else pathClean (joinBuf elem [])

/-- The loop of Go `filepath.Dir` that finds the end of the directory part:
`i := len(path) - 1; for i >= 0 && !os.IsPathSeparator(path[i]) { i-- }`; the
result is `i + 1`. -/
def dirEnd (path : GoString) : Nat → Nat
  | 0 => 0
  | k + 1 => if path.getD k ' ' = '/' then k + 1 else dirEnd path k

/-- Go `filepath.Clean` on Unix, where it is the algorithm of `path.Clean`. -/
def filepathClean (path : GoString) : GoString :=
  pathClean path

/-- Go `filepath.Dir(path)` on Unix: all but the last element of `path`,
cleaned. -/
def filepathDir (path : GoString) : GoString :=
  filepathClean (path.take (dirEnd path path.length))

/-! ## package `regexp`: the fragment the filters use -/

/-- Abstract syntax of the part of Go's `regexp` (RE2) syntax that the filters
of the plugins are written in, with the default flags (`s` and `m` off). -/
inductive Regex where
  /-- The empty expression. -/
  | empty : Regex
  /-- A literal character; `\.` is the literal `.`. -/
  | lit (c : Char) : Regex
  /-- The expression `.`: any character except a line feed. -/
  | anyCharNotNL : Regex
  /-- The expression `^`: at the beginning of the text. -/
  | beginText : Regex
  /-- The expression `$`: at the end of the text. -/
  | endText : Regex
  /-- Concatenation. -/
  | seq (a b : Regex) : Regex
  /-- The expression `r*`: zero or more repetitions. -/
  | star (r : Regex) : Regex
  deriving Repr

/-- Where the repetitions of a starred expression can end: after no
repetition, or after one that reads at least one character followed by further
ones.  A repetition reads at least one character, so `rest.length` rounds cover
every way to match. -/
def starEnds (step : GoString → List GoString) : Nat → GoString → List GoString
  | 0, rest => [rest]
  | fuel + 1, rest =>
    rest :: ((step rest).filter (fun t => t.length < rest.length)).flatMap (starEnds step fuel)

/-- A literal string as an expression. -/
def Regex.str : GoString → Regex
  | [] => Regex.empty
  | c :: cs => Regex.seq (Regex.lit c) (Regex.str cs)

/-- The positions where a match of the expression that starts at `rest` (a
suffix of a text of length `n`) can end, each given as the text that is
left. -/
def Regex.ends (n : Nat) : Regex → GoString → List GoString
  | Regex.empty, rest => [rest]
  | Regex.lit c, rest =>
    match rest with
    | [] => []
    | x :: xs => if x = c then [xs] else []
  | Regex.anyCharNotNL, rest =>
    match rest with
    | [] => []
    | x :: xs => if x ≠ '\n' then [xs] else []
  | Regex.beginText, rest => if rest.length = n then [rest] else []
  | Regex.endText, rest => if rest = [] then [rest] else []
  | Regex.seq a b, rest => (Regex.ends n a rest).flatMap (fun t => Regex.ends n b t)
  | Regex.star r, rest => starEnds (fun t => Regex.ends n r t) rest.length rest

/-- Go `(*Regexp).MatchString(s)`: whether the text contains a match of the
expression, starting anywhere. -/
def Regex.MatchString (re : Regex) (s : GoString) : Bool :=
  s.tails.any (fun t => !(Regex.ends s.length re t).isEmpty)

/-! ## The esbuild plugin API (`github.com/evanw/esbuild/pkg/api`) -/

/-- Go `error` values the hooks can meet. -/
inductive GoError where
  /-- A failed file operation (`*fs.PathError`). -/
  | pathError (path : GoString) : GoError
  /-- A process that could not be started (`*exec.Error`). -/
  | execError (name : GoString) : GoError
  /-- A process that ended with a non-zero status (`*exec.ExitError`). -/
  | exitError (code : Nat) : GoError
  deriving DecidableEq, Repr

/-- The constants of `api.Loader` used here; `LoaderNone` is the zero value. -/
inductive Loader where
  | LoaderNone
  | LoaderJSX
  | LoaderText
  deriving DecidableEq, Repr

/-- The fields of `api.OnResolveOptions`. -/
structure OnResolveOptions where
  Filter : Regex
  Namespace : GoString

/-- The fields of `api.OnResolveArgs` the callbacks read, and the namespace of
the importer, which esbuild tests the registration against. -/
structure OnResolveArgs where
  Path : GoString
  Namespace : GoString
  ResolveDir : GoString
  deriving DecidableEq, Repr

/-- The fields of `api.OnResolveResult` the callbacks set (the others keep
their zero value). -/
structure OnResolveResult where
  Path : GoString
  Namespace : GoString
  deriving DecidableEq, Repr

/-- The fields of `api.OnLoadOptions`. -/
structure OnLoadOptions where
  Filter : Regex
  Namespace : GoString

/-- The fields of `api.OnLoadArgs` the callbacks read. -/
structure OnLoadArgs where
  Path : GoString
  Namespace : GoString
  deriving DecidableEq, Repr

/-- The fields of `api.OnLoadResult` the callbacks set; `Contents` is a
`*string`, `none` being `nil`. -/
structure OnLoadResult where
  Contents : Option GoString
  WatchFiles : List GoString
  Loader : Loader
  deriving DecidableEq, Repr

/-- The zero value `api.OnLoadResult{}`. -/
def OnLoadResult.zero : OnLoadResult :=
  { Contents := none, WatchFiles := [], Loader := Loader.LoaderNone }

/-! ## External processes and files -/

/-- The fields of `exec.Cmd` the hooks set: the executable, its arguments
(without the executable's name), the working directory (`""`: the caller's),
and whether `Stderr` is the host's `os.Stderr`. -/
structure Cmd where
  Name : GoString
  Args : List GoString
  Dir : GoString
  StderrIsHost : Bool
  deriving DecidableEq, Repr

/-- Modelled from the spec: `Exec`, the process runner of package `lib`, whose
source is not among the files.  The spec describes it as launching "an
external executable with arguments and a working directory"; the hooks use its
result as an `*exec.Cmd`, so it is the command of that executable and those
arguments, nothing else set. -/
def Exec (name : GoString) (args : List GoString) : Cmd :=
  { Name := name, Args := args, Dir := [], StderrIsHost := false }

/-- What running a command comes to. -/
inductive RunOutcome where
  /-- The executable could not be started. -/
  | launchFailed (e : GoError) : RunOutcome
  /-- The process ran and ended with status `code`, having written `stdout`. -/
  | exited (code : Nat) (stdout : GoString) : RunOutcome
  deriving DecidableEq, Repr

/-- The world the load hooks act on: `os.ReadFile` (data and error, as Go
returns them) and the running of a command. -/
structure Env where
  ReadFile : GoString → GoString × Option GoError
  run : Cmd → RunOutcome

/-- Go `(*exec.Cmd).Output()`: runs the command and returns its standard
output; the error is non-nil when the command fails to start or does not end
with status 0 (then an `*exec.ExitError`, the output captured so far still
returned). -/
def Cmd.Output (env : Env) (c : Cmd) : GoString × Option GoError :=
  match env.run c with
  | RunOutcome.launchFailed e => ([], some e)
  | RunOutcome.exited code stdout =>
    if code = 0 then (stdout, none) else (stdout, some (GoError.exitError code))

/-- A plugin after its `Setup` has run: its name and the callbacks it
registered with `build.OnResolve` and `build.OnLoad`. -/
structure Plugin where
  Name : GoString
  OnResolve : List (OnResolveOptions × (OnResolveArgs → OnResolveResult × Option GoError))
  OnLoad : List (OnLoadOptions × (Env → OnLoadArgs → OnLoadResult × Option GoError))

/-- How esbuild decides whether a registered callback is asked about a path
(`config.PluginAppliesToPath`): the registration's namespace is empty or is the
path's, and the filter matches the path's text. -/
def pluginAppliesToPath (text ns : GoString) (filter : Regex) (namespace_ : GoString) :
    Bool :=
  (namespace_ = [] || ns = namespace_) && filter.MatchString text

/-! ## `lib/esbuild.go` -/

/-- The filter `"^inline:"` of `inlinePlugin`'s `build.OnResolve`. -/
def inlineResolveOptions : OnResolveOptions :=
  { Filter := Regex.seq Regex.beginText (Regex.str "inline:".toList), Namespace := [] }

/-- The callback `inlinePlugin` registers with `build.OnResolve`. -/
def inlineOnResolve (args : OnResolveArgs) : OnResolveResult × Option GoError :=
  let resolved := pathJoin [args.ResolveDir, stringsReplace args.Path "inline:".toList [] 1]
  ({ Path := resolved, Namespace := "inline".toList }, none)

/-- The options `{Filter: ".*", Namespace: "inline"}` of `inlinePlugin`'s
`build.OnLoad`. -/
def inlineLoadOptions : OnLoadOptions :=
  { Filter := Regex.star Regex.anyCharNotNL, Namespace := "inline".toList }

/-- The callback `inlinePlugin` registers with `build.OnLoad`. -/
def inlineOnLoad (env : Env) (args : OnLoadArgs) : OnLoadResult × Option GoError :=
  match env.ReadFile args.Path with
  | (_, some err) => (OnLoadResult.zero, some err)
  | (data, none) =>
    let content := data
    ({ Contents := some content, WatchFiles := [args.Path], Loader := Loader.LoaderText },
      none)

/-- The plugin `inlinePlugin`. -/
def inlinePlugin : Plugin :=
  { Name := "inline".toList
    OnResolve := [(inlineResolveOptions, inlineOnResolve)]
    OnLoad := [(inlineLoadOptions, inlineOnLoad)] }

/-- The filter `.*\.scss$` of `sassPlugin`, used by both its registrations. -/
def sassFilter : Regex :=
  Regex.seq (Regex.star Regex.anyCharNotNL) (Regex.seq (Regex.str ".scss".toList) Regex.endText)

/-- The options of `sassPlugin`'s `build.OnResolve`. -/
def sassResolveOptions : OnResolveOptions :=
  { Filter := sassFilter, Namespace := [] }

/-- The callback `sassPlugin` registers with `build.OnResolve`. -/
def sassOnResolve (args : OnResolveArgs) : OnResolveResult × Option GoError :=
  ({ Path := pathJoin [args.ResolveDir, args.Path], Namespace := "sass".toList }, none)

/-- The options of `sassPlugin`'s `build.OnLoad`. -/
def sassLoadOptions : OnLoadOptions :=
  { Filter := sassFilter, Namespace := "sass".toList }

/-- The command `sassPlugin`'s load callback builds before it runs it:
`Exec("sass", args.Path, "-I", filepath.Dir(args.Path))` with `Dir = "/"` and
`Stderr = os.Stderr`. -/
def sassCmd (args : OnLoadArgs) : Cmd :=
  let sass := Exec "sass".toList [args.Path, "-I".toList, filepathDir args.Path]
  -- if cwd is the path of the currently loaded file sass warns about it
  -- in order to avoid the deprecation warning we explicitly set it to something else
  let sass := { sass with Dir := "/".toList }
  { sass with StderrIsHost := true }

/-- The callback `sassPlugin` registers with `build.OnLoad`. -/
def sassOnLoad (env : Env) (args : OnLoadArgs) : OnLoadResult × Option GoError :=
  match Cmd.Output env (sassCmd args) with
  | (_, some err) => (OnLoadResult.zero, some err)
  | (data, none) =>
    let content := stringsTrimSpace data
    ({ Contents := some content, WatchFiles := [args.Path], Loader := Loader.LoaderText },
      none)

/-- The plugin `sassPlugin`. -/
def sassPlugin : Plugin :=
  { Name := "sass".toList
    OnResolve := [(sassResolveOptions, sassOnResolve)]
    OnLoad := [(sassLoadOptions, sassOnLoad)] }

/-- The filter `.*\.blp$` of `blpPlugin`, used by both its registrations. -/
def blpFilter : Regex :=
  Regex.seq (Regex.star Regex.anyCharNotNL) (Regex.seq (Regex.str ".blp".toList) Regex.endText)

/-- The options of `blpPlugin`'s `build.OnResolve`. -/
def blpResolveOptions : OnResolveOptions :=
  { Filter := blpFilter, Namespace := [] }

/-- The callback `blpPlugin` registers with `build.OnResolve`. -/
def blpOnResolve (args : OnResolveArgs) : OnResolveResult × Option GoError :=
  ({ Path := pathJoin [args.ResolveDir, args.Path], Namespace := "blueprint".toList }, none)

/-- The options of `blpPlugin`'s `build.OnLoad`. -/
def blpLoadOptions : OnLoadOptions :=
  { Filter := blpFilter, Namespace := "blueprint".toList }

/-- The command `blpPlugin`'s load callback builds before it runs it:
`Exec("blueprint-compiler", "compile", args.Path)` with `Stderr = os.Stderr`. -/
def blpCmd (args : OnLoadArgs) : Cmd :=
  let blp := Exec "blueprint-compiler".toList ["compile".toList, args.Path]
  { blp with StderrIsHost := true }

/-- The callback `blpPlugin` registers with `build.OnLoad`. -/
def blpOnLoad (env : Env) (args : OnLoadArgs) : OnLoadResult × Option GoError :=
  match Cmd.Output env (blpCmd args) with
  | (_, some err) => (OnLoadResult.zero, some err)
  | (data, none) =>
    let content := stringsTrimSpace data
    ({ Contents := some content, WatchFiles := [args.Path], Loader := Loader.LoaderText },
      none)

/-- The plugin `blpPlugin`. -/
def blpPlugin : Plugin :=
  { Name := "blueprint".toList
    OnResolve := [(blpResolveOptions, blpOnResolve)]
    OnLoad := [(blpLoadOptions, blpOnLoad)] }

/-- The type `BundleOptions`. -/
structure BundleOptions where
  Tsconfig : GoString
  TsconfigRaw : GoString
  deriving DecidableEq, Repr

/-- The constants of esbuild's option enumerations that `Bundle` sets. -/
inductive StderrColor where
  | ColorIfTerminal
  | ColorNever
  | ColorAlways
  deriving DecidableEq, Repr

/-- The log levels of esbuild. -/
inductive LogLevel where
  | LogLevelSilent
  | LogLevelVerbose
  | LogLevelDebug
  | LogLevelInfo
  | LogLevelWarning
  | LogLevelError
  deriving DecidableEq, Repr

/-- The output formats of esbuild. -/
inductive Format where
  | FormatDefault
  | FormatIIFE
  | FormatCommonJS
  | FormatESModule
  deriving DecidableEq, Repr

/-- The platforms of esbuild. -/
inductive Platform where
  | PlatformDefault
  | PlatformBrowser
  | PlatformNode
  | PlatformNeutral
  deriving DecidableEq, Repr

/-- The fields of `api.BuildOptions` that `Bundle` sets. -/
structure BuildOptions where
  Color : StderrColor
  LogLevel : LogLevel
  EntryPoints : List GoString
  Bundle : Bool
  Outfile : GoString
  Format : Format
  Platform : Platform
  Write : Bool
  AbsWorkingDir : GoString
  Define : List (GoString × GoString)
  Loader : List (GoString × Loader)
  External : List GoString
  Plugins : List Plugin
  Tsconfig : GoString
  TsconfigRaw : GoString

/-- An `api.Message`. -/
structure Message where
  Text : GoString
  deriving DecidableEq, Repr

/-- The fields of `api.BuildResult` that `Bundle` reads, and the warnings. -/
structure BuildResult where
  Errors : List Message
  Warnings : List Message
  deriving DecidableEq, Repr

/-- The list `External` of `Bundle`'s build options. -/
def bundleExternal : List GoString :=
  [ "console".toList, "system".toList, "cairo".toList, "gettext".toList,
    "file://*".toList, "gi://*".toList, "resource://*".toList ]

/-- The list `Plugins` of `Bundle`'s build options. -/
def bundlePlugins : List Plugin :=
  [inlinePlugin, sassPlugin, blpPlugin]

/-- The options `Bundle` hands to `api.Build`. -/
def bundleBuildOptions (infile outfile : GoString) (opts : BundleOptions) : BuildOptions :=
  let srcdir := filepathDir infile
  let options : BuildOptions :=
    { Color := StderrColor.ColorAlways
      LogLevel := LogLevel.LogLevelWarning
      EntryPoints := [infile]
      Bundle := true
      Outfile := outfile
      Format := Format.FormatESModule
      Platform := Platform.PlatformNeutral
      Write := true
      AbsWorkingDir := srcdir
      Define := [("SRC".toList, ['"'] ++ srcdir ++ ['"'])]
      Loader := [(".js".toList, Loader.LoaderJSX), (".css".toList, Loader.LoaderText)]
      External := bundleExternal
      Plugins := bundlePlugins
      Tsconfig := []
      TsconfigRaw := [] }
  let options := if opts.Tsconfig ≠ [] then { options with Tsconfig := opts.Tsconfig } else options
  let options :=
    if opts.TsconfigRaw ≠ [] then { options with TsconfigRaw := opts.TsconfigRaw } else options
  options

/-- What a call does to the host process: it returns, or it ends the process
with a status (`os.Exit`). -/
inductive Termination where
  | returns : Termination
  | exits (status : Nat) : Termination
  deriving DecidableEq, Repr

/-- The function `Bundle`, over the bundler `api.Build`. -/
def Bundle (build : BuildOptions → BuildResult) (infile outfile : GoString)
    (opts : BundleOptions) : Termination :=
  let result := build (bundleBuildOptions infile outfile opts)
  if result.Errors.length > 0 then Termination.exits 1 else Termination.returns

/-! ## How esbuild uses the registrations -/

/-- A resolve registration asked about a specifier: `none` when esbuild does
not call it (the registration does not apply), else what the callback
returns. -/
def askResolve
    (reg : OnResolveOptions × (OnResolveArgs → OnResolveResult × Option GoError))
    (args : OnResolveArgs) : Option (OnResolveResult × Option GoError) :=
  if pluginAppliesToPath args.Path args.Namespace reg.1.Filter reg.1.Namespace then
    some (reg.2 args)
  else none

/-- Whether a load registration is the one esbuild calls for a resolved
module. -/
def acceptsLoad (opts : OnLoadOptions) (r : OnResolveResult) : Bool :=
  pluginAppliesToPath r.Path r.Namespace opts.Filter opts.Namespace

/-- What esbuild makes of a resolve registration asked about a specifier
(`RunOnResolvePlugins`): nothing when the registration does not apply, and
nothing when its callback returns an empty path without an error, for then
esbuild goes on to the next registration; otherwise the callback's result,
which ends the search (an error stops the resolution). -/
def resolveAnswer
    (reg : OnResolveOptions × (OnResolveArgs → OnResolveResult × Option GoError))
    (args : OnResolveArgs) : Option (OnResolveResult × Option GoError) :=
  match askResolve reg args with
  | none => none
  | some res => if res.2.isSome = true ∨ res.1.Path ≠ [] then some res else none

/-- First-match resolution over resolve registrations in their order: the
first one that applies and returns an error or a non-empty path answers;
`none` when there is none and esbuild falls back to its default
resolution. -/
def firstMatch :
    List (OnResolveOptions × (OnResolveArgs → OnResolveResult × Option GoError)) →
    OnResolveArgs → Option (OnResolveResult × Option GoError)
  | [], _ => none
  | reg :: regs, args =>
    match resolveAnswer reg args with
    | some r => some r
    | none => firstMatch regs args

/-- The resolve registrations of a list of plugins, in registration order. -/
def resolveRules (plugins : List Plugin) :
    List (OnResolveOptions × (OnResolveArgs → OnResolveResult × Option GoError)) :=
  plugins.flatMap (fun p => p.OnResolve)

/-- How esbuild matches a specifier against one entry of `External`: an entry
with a `*` matches by what stands before and after the star, any other entry
only the specifier equal to it. -/
def externalMatches (pattern s : GoString) : Bool :=
  if '*' ∈ pattern then
    let pre := pattern.takeWhile (· ≠ '*')
    let suf := (pattern.dropWhile (· ≠ '*')).drop 1
    decide (pre.length + suf.length ≤ s.length) && pre.isPrefixOf s && suf.isSuffixOf s
  else decide (s = pattern)

/-- Whether a specifier matches the external allowlist. -/
def isExternal (externals : List GoString) (s : GoString) : Bool :=
  externals.any (fun pattern => externalMatches pattern s)

/-- The names of the plugins that have a load registration esbuild calls for
a resolved module. -/
def loadHookOwners (plugins : List Plugin) (r : OnResolveResult) : List GoString :=
  (plugins.filter (fun q => q.OnLoad.any (fun l => acceptsLoad l.1 r))).map (fun q => q.Name)

/-! ## Example worlds -/

/-- A world with one readable file; no command can be started. -/
def oneFileEnv (path content : GoString) : Env :=
  { ReadFile := fun p => if p = path then (content, none) else ([], some (GoError.pathError p))
    run := fun c => RunOutcome.launchFailed (GoError.execError c.Name) }

/-- A world without readable files where every command has the given
outcome. -/
def fixedRunEnv (outcome : RunOutcome) : Env :=
  { ReadFile := fun p => ([], some (GoError.pathError p))
    run := fun _ => outcome }

/-! ## Specification predicates -/

/-- "`c` is `s` with all leading and trailing white space removed and nothing
else changed": `s` is `c` between two runs of white space, and `c` neither
begins nor ends with white space. -/
def IsTrimOf (c s : GoString) : Prop :=
  (∃ l r : GoString, s = l ++ c ++ r ∧ (∀ x ∈ l, unicodeIsSpace x = true) ∧
    (∀ x ∈ r, unicodeIsSpace x = true)) ∧
  (∀ x, c.head? = some x → unicodeIsSpace x = false) ∧
  (∀ x, c.getLast? = some x → unicodeIsSpace x = false)

/-! ## Lemmas on the filters -/

theorem ends_str (n : Nat) (lit rest : GoString) :
    Regex.ends n (Regex.str lit) rest = if lit <+: rest then [rest.drop lit.length] else [] := by
  induction lit generalizing rest with
  | nil => simp [Regex.str, Regex.ends]
  | cons c cs ih =>
    cases rest with
    | nil => simp [Regex.str, Regex.ends]
    | cons x xs =>
      by_cases hx : x = c
      · subst hx
        simp [Regex.str, Regex.ends, ih, List.cons_prefix_cons]
      · have hx' : ¬ c = x := fun h => hx h.symm
        simp [Regex.str, Regex.ends, hx, hx', List.cons_prefix_cons]

theorem ends_str_endText (n : Nat) (lit rest : GoString) :
    Regex.ends n (Regex.seq (Regex.str lit) Regex.endText) rest =
      if rest = lit then [[]] else [] := by
  simp only [Regex.ends, ends_str]
  by_cases h : lit <+: rest
  · obtain ⟨t, rfl⟩ := h
    cases t with
    | nil => simp
    | cons y ys => simp
  · have : rest ≠ lit := by
      rintro rfl
      exact h (List.prefix_refl _)
    simp [h, this]

theorem starEnds_suffix (step : GoString → List GoString)
    (hstep : ∀ r u, u ∈ step r → u <:+ r) (fuel : Nat) (rest u : GoString)
    (hu : u ∈ starEnds step fuel rest) : u <:+ rest := by
  induction fuel generalizing rest with
  | zero =>
    simp [starEnds] at hu
    subst hu
    exact List.suffix_refl _
  | succ k ih =>
    simp only [starEnds, List.mem_cons, List.mem_flatMap, List.mem_filter] at hu
    rcases hu with rfl | ⟨t, ⟨ht, _⟩, hut⟩
    · exact List.suffix_refl _
    · exact (ih t hut).trans (hstep rest t ht)

theorem starEnds_self (step : GoString → List GoString) (fuel : Nat) (rest : GoString) :
    rest ∈ starEnds step fuel rest := by
  cases fuel <;> simp [starEnds]

theorem anyCharNotNL_suffix (n : Nat) (r u : GoString)
    (hu : u ∈ Regex.ends n Regex.anyCharNotNL r) : u <:+ r := by
  cases r with
  | nil => simp [Regex.ends] at hu
  | cons x xs =>
    simp only [Regex.ends] at hu
    split at hu
    · simp at hu
      subst hu
      exact List.suffix_cons x u
    · simp at hu

/-- A filter of the shape `.*` literal `$` matches exactly the texts that end
with the literal. -/
theorem matchString_suffix (lit s : GoString) :
    (Regex.seq (Regex.star Regex.anyCharNotNL)
      (Regex.seq (Regex.str lit) Regex.endText)).MatchString s = true ↔ lit <:+ s := by
  simp only [Regex.MatchString, List.any_eq_true, List.mem_tails, Bool.not_eq_true',
    List.isEmpty_eq_false]
  constructor
  · rintro ⟨t, hts, hne⟩
    obtain ⟨v, hv⟩ := List.exists_mem_of_ne_nil _ hne
    rw [Regex.ends] at hv
    simp only [List.mem_flatMap] at hv
    obtain ⟨u, hu, hvu⟩ := hv
    rw [Regex.ends] at hu
    have hsuf := starEnds_suffix _ (anyCharNotNL_suffix s.length) _ _ _ hu
    rw [ends_str_endText] at hvu
    split at hvu
    · rename_i h
      subst h
      exact hsuf.trans hts
    · simp at hvu
  · intro h
    refine ⟨lit, h, ?_⟩
    have hmem : ([] : GoString) ∈ Regex.ends s.length (Regex.seq (Regex.star Regex.anyCharNotNL)
        (Regex.seq (Regex.str lit) Regex.endText)) lit := by
      rw [Regex.ends]
      simp only [List.mem_flatMap]
      refine ⟨lit, ?_, ?_⟩
      · rw [Regex.ends]
        exact starEnds_self _ _ _
      · rw [ends_str_endText]
        simp
    exact List.ne_nil_of_mem hmem

/-- A filter of the shape `^` literal matches exactly the texts that begin
with the literal. -/
theorem matchString_begins (lit s : GoString) :
    (Regex.seq Regex.beginText (Regex.str lit)).MatchString s = true ↔ lit <+: s := by
  simp only [Regex.MatchString, List.any_eq_true, List.mem_tails, Bool.not_eq_true',
    List.isEmpty_eq_false]
  constructor
  · rintro ⟨t, hts, hne⟩
    obtain ⟨v, hv⟩ := List.exists_mem_of_ne_nil _ hne
    rw [Regex.ends] at hv
    simp only [List.mem_flatMap] at hv
    obtain ⟨u, hu, hvu⟩ := hv
    rw [Regex.ends] at hu
    split at hu
    · rename_i hlen
      simp at hu
      subst hu
      have hst : u = s := hts.eq_of_length hlen
      subst hst
      rw [ends_str] at hvu
      split at hvu
      · assumption
      · simp at hvu
    · simp at hu
  · intro h
    refine ⟨s, List.suffix_refl _, ?_⟩
    have hmem : s.drop lit.length ∈
        Regex.ends s.length (Regex.seq Regex.beginText (Regex.str lit)) s := by
      rw [Regex.ends]
      simp only [List.mem_flatMap]
      refine ⟨s, ?_, ?_⟩
      · simp [Regex.ends]
      · rw [ends_str]
        simp [h]
    exact List.ne_nil_of_mem hmem

/-- The filter `.*` matches every text. -/
theorem matchString_dotStar (s : GoString) :
    (Regex.star Regex.anyCharNotNL).MatchString s = true := by
  simp only [Regex.MatchString, List.any_eq_true, List.mem_tails, Bool.not_eq_true',
    List.isEmpty_eq_false]
  refine ⟨s, List.suffix_refl _, ?_⟩
  have hmem : s ∈ Regex.ends s.length (Regex.star Regex.anyCharNotNL) s := by
    rw [Regex.ends]
    exact starEnds_self _ _ _
  exact List.ne_nil_of_mem hmem

/-! ## Lemmas on `strings.Replace` -/

theorem stringsIndex_of_isPrefix (lit rel : GoString) (hne : lit ≠ []) :
    stringsIndex (lit ++ rel) lit = 0 := by
  cases lit with
  | nil => exact absurd rfl hne
  | cons c cs =>
    have hp : (c :: cs).isPrefixOf (c :: (cs ++ rel)) = true := by
      rw [List.isPrefixOf_iff_prefix]
      exact List.prefix_append (c :: cs) rel
    show stringsIndex.go (c :: cs) (c :: (cs ++ rel)) 0 = 0
    rw [stringsIndex.go, if_pos hp]
    rfl

theorem stringsCountLoop_ge (substr : GoString) (fuel : Nat) (s : GoString) (n : Nat) :
    n ≤ stringsCountLoop substr fuel s n := by
  induction fuel generalizing s n with
  | zero => simp [stringsCountLoop]
  | succ k ih =>
    simp only [stringsCountLoop]
    split
    · exact Nat.le_refl n
    · exact Nat.le_trans (Nat.le_succ n) (ih _ _)

/-- Replacing the first instance of a non-empty `lit` in `lit ++ rel` by the
empty string leaves `rel`. -/
theorem stringsReplace_leading (lit rel : GoString) (hne : lit ≠ []) :
    stringsReplace (lit ++ rel) lit [] 1 = rel := by
  have hidx := stringsIndex_of_isPrefix lit rel hne
  have hlen : lit.length ≠ 0 := by
    simpa using hne
  have hcount : 1 ≤ stringsCount (lit ++ rel) lit := by
    simp only [stringsCount, hlen, if_false, stringsCountLoop, hidx]
    exact stringsCountLoop_ge _ _ _ _
  have h1 : ¬ (lit = [] ∨ (1 : Int) = 0) := by simp [hne]
  have h2 : ¬ stringsCount (lit ++ rel) lit = 0 := by omega
  have h3 : ¬ ((1 : Int) < 0 ∨ ((stringsCount (lit ++ rel) lit : Nat) : Int) < 1) := by omega
  simp only [stringsReplace, h1, h2, h3, if_false]
  simp [stringsReplaceLoop, hlen, hidx]

/-! ## Lemmas on `strings.TrimSpace` -/

theorem char_eq_iff_toNat (c d : Char) : c = d ↔ c.toNat = d.toNat := by
  constructor
  · rintro rfl
    rfl
  · intro h
    rw [← Char.ofNat_toNat c, ← Char.ofNat_toNat d, h]

theorem asciiSpace_eq_isSpace (c : Char) (h : ¬ c.toNat ≥ 0x80) :
    asciiSpace c = unicodeIsSpace c := by
  have h9 : (c = '\t') = (c.toNat = 9) := propext (char_eq_iff_toNat c '\t')
  have h10 : (c = '\n') = (c.toNat = 10) := propext (char_eq_iff_toNat c '\n')
  have h11 : (c = '\x0b') = (c.toNat = 11) := propext (char_eq_iff_toNat c '\x0b')
  have h12 : (c = '\x0c') = (c.toNat = 12) := propext (char_eq_iff_toNat c '\x0c')
  have h13 : (c = '\r') = (c.toNat = 13) := propext (char_eq_iff_toNat c '\r')
  have h32 : (c = ' ') = (c.toNat = 32) := propext (char_eq_iff_toNat c ' ')
  have hle : c.toNat ≤ 0xFF := by omega
  have h85 : ¬ c.toNat = 0x85 := by omega
  have hA0 : ¬ c.toNat = 0xA0 := by omega
  simp only [asciiSpace, unicodeIsSpace, h9, h10, h11, h12, h13, h32, hle, if_true]
  simp [h85, hA0]

theorem trimSpaceStop_eq (r : GoString) :
    trimSpaceStop r = (r.dropWhile unicodeIsSpace).reverse := by
  induction r with
  | nil => simp [trimSpaceStop]
  | cons c cs ih =>
    by_cases h : c.toNat ≥ 0x80
    · simp [trimSpaceStop, h, stringsTrimRightFunc, List.rdropWhile]
    · have heq := asciiSpace_eq_isSpace c h
      by_cases hs : unicodeIsSpace c = true
      · simp [trimSpaceStop, h, heq, hs, ih, List.dropWhile_cons]
      · simp [trimSpaceStop, h, heq, hs, List.dropWhile_cons]

theorem trimSpaceStart_eq (s : GoString) :
    trimSpaceStart s = (s.dropWhile unicodeIsSpace).rdropWhile unicodeIsSpace := by
  induction s with
  | nil => simp [trimSpaceStart, trimSpaceStop]
  | cons c cs ih =>
    by_cases h : c.toNat ≥ 0x80
    · simp [trimSpaceStart, h, stringsTrimFunc, stringsTrimRightFunc, stringsTrimLeftFunc]
    · have heq := asciiSpace_eq_isSpace c h
      by_cases hs : unicodeIsSpace c = true
      · simp [trimSpaceStart, h, heq, hs, ih, List.dropWhile_cons]
      · simp [trimSpaceStart, h, heq, hs, List.dropWhile_cons, trimSpaceStop_eq,
          List.rdropWhile]

theorem rdropWhile_append_rtakeWhile (p : Char → Bool) (t : GoString) :
    t.rdropWhile p ++ t.rtakeWhile p = t := by
  simp only [List.rdropWhile, List.rtakeWhile, ← List.reverse_append,
    List.takeWhile_append_dropWhile, List.reverse_reverse]

/-- What `strings.TrimSpace` returns is its argument with all leading and
trailing white space removed and nothing else changed. -/
theorem stringsTrimSpace_isTrimOf (s : GoString) : IsTrimOf (stringsTrimSpace s) s := by
  rw [stringsTrimSpace, trimSpaceStart_eq]
  refine ⟨⟨s.takeWhile unicodeIsSpace, (s.dropWhile unicodeIsSpace).rtakeWhile unicodeIsSpace,
    ?_, ?_, ?_⟩, ?_, ?_⟩
  · rw [List.append_assoc, rdropWhile_append_rtakeWhile, List.takeWhile_append_dropWhile]
  · intro x hx
    exact List.mem_takeWhile_imp hx
  · intro x hx
    exact List.mem_rtakeWhile_imp hx
  · intro x hx
    have hpre : (s.dropWhile unicodeIsSpace).rdropWhile unicodeIsSpace <+:
        s.dropWhile unicodeIsSpace := List.rdropWhile_prefix _ _
    have hhead : (s.dropWhile unicodeIsSpace).head? = some x := by
      obtain ⟨u, hu⟩ := hpre
      rw [← hu]
      cases hc : (s.dropWhile unicodeIsSpace).rdropWhile unicodeIsSpace with
      | nil => rw [hc] at hx; simp at hx
      | cons y ys => rw [hc] at hx; simpa using hx
    have := List.head?_dropWhile_not unicodeIsSpace s
    rw [hhead] at this
    simpa using this
  · intro x hx
    have hne : (s.dropWhile unicodeIsSpace).rdropWhile unicodeIsSpace ≠ [] := by
      intro h
      rw [h] at hx
      simp at hx
    have hlast := List.rdropWhile_last_not unicodeIsSpace _ hne
    rw [List.getLast?_eq_getLast _ hne] at hx
    simp only [Option.some.injEq] at hx
    rw [hx] at hlast
    simpa using hlast

/-! ## Lemmas on `path.Clean` and `path.Join` -/

theorem suffix_of_suffix_append_slash (lit a t : GoString) (hs : '/' ∉ lit)
    (h : lit <:+ a ++ '/' :: t) : lit <:+ t := by
  obtain ⟨u, hu⟩ := h
  rcases List.append_eq_append_iff.mp hu with ⟨a', _, h2⟩ | ⟨c', _, h2⟩
  · exfalso
    apply hs
    rw [h2]
    simp
  · cases c' with
    | nil =>
      exfalso
      apply hs
      rw [List.nil_append] at h2
      rw [← h2]
      exact List.mem_cons_self _ _
    | cons x xs =>
      simp only [List.cons_append, List.cons.injEq] at h2
      exact ⟨xs, h2.2.symm⟩

theorem suffix_tail_of_slash (lit rest : GoString) (hs : '/' ∉ lit)
    (h : lit <:+ '/' :: rest) : lit <:+ rest :=
  suffix_of_suffix_append_slash lit [] rest hs (by simpa using h)

theorem suffix_of_dot_element (lit rest : GoString) (hs : '/' ∉ lit) (hl : 3 ≤ lit.length)
    (hr : rest = [] ∨ rest.head? = some '/') (h : lit <:+ '.' :: rest) : lit <:+ rest := by
  rcases List.suffix_cons_iff.mp h with h1 | h1
  · exfalso
    rcases hr with hr | hr
    · subst hr
      rw [h1] at hl
      simp at hl
    · cases rest with
      | nil => simp at hr
      | cons y ys =>
        simp at hr
        subst hr
        apply hs
        rw [h1]
        simp
  · exact h1

theorem suffix_of_dotdot_element (lit rest : GoString) (hs : '/' ∉ lit) (hl : 3 ≤ lit.length)
    (hr : rest = [] ∨ rest.head? = some '/') (h : lit <:+ '.' :: '.' :: rest) :
    lit <:+ rest := by
  rcases List.suffix_cons_iff.mp h with h1 | h1
  · exfalso
    rcases hr with hr | hr
    · subst hr
      rw [h1] at hl
      simp at hl
    · cases rest with
      | nil => simp at hr
      | cons y ys =>
        simp at hr
        subst hr
        apply hs
        rw [h1]
        simp
  · exact suffix_of_dot_element lit rest hs hl hr h1

theorem cleanLoop_nil (rooted : Bool) (fuel : Nat) (out : GoString) (dotdot : Nat) :
    cleanLoop rooted fuel [] out dotdot = out := by
  cases fuel <;> simp [cleanLoop]

/-- The main loop of `path.Clean` keeps a literal of three or more bytes
without a slash at the end of what is left to read at the end of its
result. -/
theorem cleanLoop_suffix (lit : GoString) (hs : '/' ∉ lit) (hl : 3 ≤ lit.length)
    (rooted : Bool) (fuel : Nat) :
    ∀ (rest out : GoString) (dotdot : Nat), rest.length ≤ fuel → lit <:+ rest →
      lit <:+ cleanLoop rooted fuel rest out dotdot := by
  induction fuel with
  | zero =>
    intro rest out dotdot hlen hsuf
    have : rest = [] := List.length_eq_zero.mp (Nat.le_zero.mp hlen)
    subst this
    have := List.eq_nil_of_suffix_nil hsuf
    subst this
    simp at hl
  | succ k ih =>
    intro rest out dotdot hlen hsuf
    cases rest with
    | nil =>
      have := List.eq_nil_of_suffix_nil hsuf
      subst this
      simp at hl
    | cons c rest =>
      have hk : rest.length ≤ k := by simpa using hlen
      rw [cleanLoop]
      by_cases h1 : c = '/'
      · rw [if_pos h1]
        subst h1
        exact ih _ _ _ hk (suffix_tail_of_slash lit rest hs hsuf)
      · rw [if_neg h1]
        by_cases h2 : c = '.' ∧ (rest = [] ∨ rest.head? = some '/')
        · rw [if_pos h2]
          obtain ⟨hc, hr⟩ := h2
          subst hc
          exact ih _ _ _ hk (suffix_of_dot_element lit rest hs hl hr hsuf)
        · rw [if_neg h2]
          by_cases h3 : c = '.' ∧ rest.head? = some '.' ∧
              (rest.tail = [] ∨ rest.tail.head? = some '/')
          · rw [if_pos h3]
            obtain ⟨hc, hd, hr⟩ := h3
            subst hc
            cases rest with
            | nil => simp at hd
            | cons y ys =>
              simp only [List.head?_cons, Option.some.injEq] at hd
              subst hd
              have h' : lit <:+ ys := suffix_of_dotdot_element lit ys hs hl hr hsuf
              have hk' : ys.length ≤ k := by
                simp only [List.length_cons] at hk
                omega
              simp only [List.tail_cons]
              split_ifs <;> exact ih _ _ _ hk' h'
          · rw [if_neg h3]
            have hdw : List.dropWhile (fun x : Char => decide (x ≠ '/')) (c :: rest) =
                rest.dropWhile (fun x : Char => decide (x ≠ '/')) := by
              simp [List.dropWhile_cons, h1]
            have htk : List.takeWhile (fun x : Char => decide (x ≠ '/')) (c :: rest) =
                c :: rest.takeWhile (fun x : Char => decide (x ≠ '/')) := by
              simp [List.takeWhile_cons, h1]
            simp only [hdw, htk]
            cases hd : rest.dropWhile (fun x : Char => decide (x ≠ '/')) with
            | nil =>
              rw [cleanLoop_nil]
              have htw : rest.takeWhile (fun x : Char => decide (x ≠ '/')) = rest := by
                have := List.takeWhile_append_dropWhile (fun x : Char => decide (x ≠ '/')) rest
                rw [hd, List.append_nil] at this
                exact this
              rw [htw]
              exact hsuf.trans (List.suffix_append _ _)
            | cons y ys =>
              have hy : y = '/' := by
                have := List.head?_dropWhile_not (fun x : Char => decide (x ≠ '/')) rest
                rw [hd] at this
                simpa using this
              subst hy
              have hsplit : c :: rest =
                  (c :: rest.takeWhile (fun x : Char => decide (x ≠ '/'))) ++ '/' :: ys := by
                rw [List.cons_append, ← hd, List.takeWhile_append_dropWhile]
              have h' : lit <:+ ys := by
                rw [hsplit] at hsuf
                exact suffix_of_suffix_append_slash lit _ ys hs hsuf
              have hk' : ('/' :: ys).length ≤ k := by
                rw [← hd]
                exact Nat.le_trans (List.dropWhile_suffix _).length_le hk
              exact ih _ _ _ hk' (h'.trans (List.suffix_cons _ _))

/-- The function `path.Clean` keeps a literal of three or more bytes without a
slash at the end of its argument at the end of its result. -/
theorem pathClean_suffix (lit path : GoString) (hs : '/' ∉ lit) (hl : 3 ≤ lit.length)
    (h : lit <:+ path) : lit <:+ pathClean path := by
  cases path with
  | nil =>
    have := List.eq_nil_of_suffix_nil h
    subst this
    simp at hl
  | cons c rest =>
    simp only [pathClean]
    have hne : ∀ out : GoString, lit <:+ out → (if out.length = 0 then ['.'] else out) = out := by
      intro out hout
      have : out.length ≠ 0 := by
        have := hout.length_le
        omega
      rw [if_neg this]
    by_cases hc : c = '/'
    · subst hc
      have h' : lit <:+ rest := suffix_tail_of_slash lit rest hs h
      have hres := cleanLoop_suffix lit hs hl true ('/' :: rest).length rest ['/'] 1
        (by simp) h'
      simp only [decide_True, if_true, List.drop_succ_cons, List.drop_zero]
      rw [hne _ hres]
      exact hres
    · have hres := cleanLoop_suffix lit hs hl false (c :: rest).length (c :: rest) [] 0
        (Nat.le_refl _) h
      simp only [hc, decide_False, Bool.false_eq_true, if_false]
      rw [hne _ hres]
      exact hres

/-- Joining a directory and a specifier keeps a literal of three or more bytes
without a slash at the end of the specifier at the end of the path. -/
theorem pathJoin_suffix (lit d s : GoString) (hs : '/' ∉ lit) (hl : 3 ≤ lit.length)
    (h : lit <:+ s) : lit <:+ pathJoin [d, s] := by
  have hslen : s.length ≠ 0 := by
    have := h.length_le
    omega
  have hsne : s ≠ [] := by
    intro h0
    rw [h0] at hslen
    simp at hslen
  have hsum : ¬ (([d, s].map List.length).sum = 0) := by
    simp only [List.map_cons, List.map_nil, List.sum_cons, List.sum_nil]
    omega
  rw [pathJoin, if_neg hsum]
  apply pathClean_suffix lit _ hs hl
  cases d with
  | nil => simpa [joinBuf, hsne] using h
  | cons x xs =>
    simp only [joinBuf, List.length_nil, gt_iff_lt, Nat.lt_irrefl, false_or, ne_eq,
      not_false_eq_true, if_true, if_false, List.nil_append, List.length_cons,
      Nat.zero_lt_succ, true_or, reduceCtorEq]
    exact h.trans (List.suffix_append _ _)

/-! ## The loops never use up their rounds -/

/-- With at least `len(rest)` rounds the main loop of `path.Clean` reads all of
`rest`: more rounds change nothing. -/
theorem cleanLoop_rounds (rooted : Bool) (fuel : Nat) :
    ∀ (fuel' : Nat) (rest out : GoString) (dotdot : Nat), rest.length ≤ fuel →
      rest.length ≤ fuel' →
      cleanLoop rooted fuel rest out dotdot = cleanLoop rooted fuel' rest out dotdot := by
  induction fuel with
  | zero =>
    intro fuel' rest out dotdot h _
    have : rest = [] := List.length_eq_zero.mp (Nat.le_zero.mp h)
    subst this
    rw [cleanLoop_nil, cleanLoop_nil]
  | succ k ih =>
    intro fuel' rest out dotdot h h'
    cases rest with
    | nil => rw [cleanLoop_nil, cleanLoop_nil]
    | cons c rest =>
      cases fuel' with
      | zero => simp at h'
      | succ k' =>
        have hk : rest.length ≤ k := by simpa using h
        have hk' : rest.length ≤ k' := by simpa using h'
        have ht : rest.tail.length ≤ k := by
          rw [List.length_tail]
          omega
        have ht' : rest.tail.length ≤ k' := by
          rw [List.length_tail]
          omega
        have hd : ¬ c = '/' →
            (List.dropWhile (fun x : Char => decide (x ≠ '/')) (c :: rest)).length ≤
              rest.length := by
          intro hc
          · have : List.dropWhile (fun x : Char => decide (x ≠ '/')) (c :: rest) =
                rest.dropWhile (fun x : Char => decide (x ≠ '/')) := by
              simp [List.dropWhile_cons, hc]
            rw [this]
            exact (List.dropWhile_suffix _).length_le
        rw [cleanLoop, cleanLoop]
        split_ifs with h1
        · exact ih _ _ _ _ hk hk'
        · exact ih _ _ _ _ hk hk'
        · exact ih _ _ _ _ ht ht'
        · exact ih _ _ _ _ ht ht'
        · exact ih _ _ _ _ ht ht'
        · exact ih _ _ _ _ ht ht'
        · exact ih _ _ _ _ (Nat.le_trans (hd h1) hk) (Nat.le_trans (hd h1) hk')
        · exact ih _ _ _ _ (Nat.le_trans (hd h1) hk) (Nat.le_trans (hd h1) hk')

/-- With more than `len(s)` rounds the loop of `strings.Count` finds every
instance: more rounds change nothing. -/
theorem stringsCountLoop_rounds (substr : GoString) (hne : substr ≠ []) (fuel : Nat) :
    ∀ (fuel' : Nat) (s : GoString) (n : Nat), s.length < fuel → s.length < fuel' →
      stringsCountLoop substr fuel s n = stringsCountLoop substr fuel' s n := by
  induction fuel with
  | zero =>
    intro fuel' s n h _
    omega
  | succ k ih =>
    intro fuel' s n h h'
    cases fuel' with
    | zero => omega
    | succ k' =>
      simp only [stringsCountLoop]
      split_ifs with hi
      · rfl
      · have hs : s ≠ [] := by
          rintro rfl
          apply hi
          simp [stringsIndex, stringsIndex.go, hne]
        have hpos : 0 < s.length := List.length_pos.mpr hs
        have hlen : 0 < substr.length := List.length_pos.mpr hne
        have hdrop : (s.drop ((stringsIndex s substr).toNat + substr.length)).length <
            s.length := by
          rw [List.length_drop]
          omega
        exact ih _ _ _ (by omega) (by omega)

/-! ## The resolve rules -/

theorem askResolve_inline (args : OnResolveArgs) :
    askResolve (inlineResolveOptions, inlineOnResolve) args =
      if "inline:".toList <+: args.Path then some (inlineOnResolve args) else none := by
  simp only [askResolve, pluginAppliesToPath, inlineResolveOptions, decide_True, Bool.true_or,
    Bool.true_and]
  by_cases h : "inline:".toList <+: args.Path
  · rw [if_pos h, if_pos ((matchString_begins _ _).mpr h)]
  · rw [if_neg h, if_neg (fun hm => h ((matchString_begins _ _).mp hm))]

theorem askResolve_sass (args : OnResolveArgs) :
    askResolve (sassResolveOptions, sassOnResolve) args =
      if ".scss".toList <:+ args.Path then some (sassOnResolve args) else none := by
  simp only [askResolve, pluginAppliesToPath, sassResolveOptions, sassFilter, decide_True,
    Bool.true_or, Bool.true_and]
  by_cases h : ".scss".toList <:+ args.Path
  · rw [if_pos h, if_pos ((matchString_suffix _ _).mpr h)]
  · rw [if_neg h, if_neg (fun hm => h ((matchString_suffix _ _).mp hm))]

theorem askResolve_blp (args : OnResolveArgs) :
    askResolve (blpResolveOptions, blpOnResolve) args =
      if ".blp".toList <:+ args.Path then some (blpOnResolve args) else none := by
  simp only [askResolve, pluginAppliesToPath, blpResolveOptions, blpFilter, decide_True,
    Bool.true_or, Bool.true_and]
  by_cases h : ".blp".toList <:+ args.Path
  · rw [if_pos h, if_pos ((matchString_suffix _ _).mpr h)]
  · rw [if_neg h, if_neg (fun hm => h ((matchString_suffix _ _).mp hm))]

/-- C1: for every remainder `rel` and importer directory, the inline resolve
rule applied to `"inline:" ++ rel` is called by esbuild and returns the path
`path.Join(importerDir, rel)` in namespace `inline` with a nil error: only the
leading `inline:` is stripped, whatever `rel` contains. -/
theorem inline_resolve_strips_leading_scheme (rel importerDir ns : GoString) :
    askResolve (inlineResolveOptions, inlineOnResolve)
        { Path := "inline:".toList ++ rel, Namespace := ns, ResolveDir := importerDir } =
      some ({ Path := pathJoin [importerDir, rel], Namespace := "inline".toList }, none) := by
  rw [askResolve_inline, if_pos (List.prefix_append _ _)]
  simp only [inlineOnResolve]
  rw [stringsReplace_leading _ _ (by decide)]

/-- C2: the sass rule claims a specifier exactly when it ends with `.scss`
and then returns `path.Join(dir, s)` in namespace `sass`; the blueprint rule
claims it exactly when it ends with `.blp` and then returns `path.Join(dir, s)`
in namespace `blueprint`; the error is nil in both; `x.SCSS` is not claimed. -/
theorem extension_rules_claim_by_suffix (s d ns : GoString) :
    (askResolve (sassResolveOptions, sassOnResolve)
        { Path := s, Namespace := ns, ResolveDir := d } =
      if ".scss".toList <:+ s then
        some ({ Path := pathJoin [d, s], Namespace := "sass".toList }, none)
      else none) ∧
    (askResolve (blpResolveOptions, blpOnResolve)
        { Path := s, Namespace := ns, ResolveDir := d } =
      if ".blp".toList <:+ s then
        some ({ Path := pathJoin [d, s], Namespace := "blueprint".toList }, none)
      else none) ∧
    askResolve (sassResolveOptions, sassOnResolve)
        { Path := "x.SCSS".toList, Namespace := ns, ResolveDir := d } = none := by
  refine ⟨?_, ?_, ?_⟩
  · rw [askResolve_sass]
    rfl
  · rw [askResolve_blp]
    rfl
  · have h : ¬ ".scss".toList <:+ "x.SCSS".toList := by decide
    rw [askResolve_sass]
    exact if_neg h

/-! ## The load hooks -/

theorem acceptsLoad_inline (r : OnResolveResult) :
    acceptsLoad inlineLoadOptions r = decide (r.Namespace = "inline".toList) := by
  simp only [acceptsLoad, pluginAppliesToPath, inlineLoadOptions, matchString_dotStar,
    Bool.and_true]
  have : decide ("inline".toList = ([] : GoString)) = false := by decide
  rw [this, Bool.false_or]

/-- C3: when the file at `p` is readable with content `b`, the inline load
hook, which esbuild calls for every path in namespace `inline`, returns `b`
unchanged as contents, the watched files `[p]` and the text loader, with a nil
error. -/
theorem inline_load_returns_file_verbatim (env : Env) (p ns b : GoString)
    (h : env.ReadFile p = (b, none)) :
    acceptsLoad inlineLoadOptions { Path := p, Namespace := "inline".toList } = true ∧
    inlineOnLoad env { Path := p, Namespace := ns } =
      ({ Contents := some b, WatchFiles := [p], Loader := Loader.LoaderText }, none) := by
  refine ⟨?_, ?_⟩
  · rw [acceptsLoad_inline]
    exact decide_eq_true rfl
  · simp only [inlineOnLoad, h]

/-- C3 at a concrete input: a file holding `"hello\n"` is delivered as
`"hello\n"`. -/
theorem inline_load_returns_file_verbatim_witness :
    acceptsLoad inlineLoadOptions
        { Path := "/src/readme.txt".toList, Namespace := "inline".toList } = true ∧
    inlineOnLoad (oneFileEnv "/src/readme.txt".toList "hello\n".toList)
        { Path := "/src/readme.txt".toList, Namespace := "inline".toList } =
      ({ Contents := some "hello\n".toList, WatchFiles := ["/src/readme.txt".toList],
         Loader := Loader.LoaderText }, none) :=
  inline_load_returns_file_verbatim (oneFileEnv "/src/readme.txt".toList "hello\n".toList)
    "/src/readme.txt".toList "inline".toList "hello\n".toList (by decide)

/-- C4: after a run that ended with status 0 and wrote `out`, the sass load
hook and the blueprint load hook each return as contents `out` with all
leading and trailing white space removed and nothing else changed, the
watched files `[args.Path]` and the text loader, with a nil error. -/
theorem compile_hooks_trim_stdout (env : Env) (args : OnLoadArgs) (out : GoString) :
    (env.run (sassCmd args) = RunOutcome.exited 0 out →
      ∃ content, IsTrimOf content out ∧
        sassOnLoad env args =
          ({ Contents := some content, WatchFiles := [args.Path],
             Loader := Loader.LoaderText }, none)) ∧
    (env.run (blpCmd args) = RunOutcome.exited 0 out →
      ∃ content, IsTrimOf content out ∧
        blpOnLoad env args =
          ({ Contents := some content, WatchFiles := [args.Path],
             Loader := Loader.LoaderText }, none)) := by
  refine ⟨?_, ?_⟩
  · intro h
    refine ⟨stringsTrimSpace out, stringsTrimSpace_isTrimOf out, ?_⟩
    simp [sassOnLoad, Cmd.Output, h]
  · intro h
    refine ⟨stringsTrimSpace out, stringsTrimSpace_isTrimOf out, ?_⟩
    simp [blpOnLoad, Cmd.Output, h]

/-- C4 at a concrete input: the standard output `"body{color:red}\n"` of a
successful sass run is delivered as `"body{color:red}"`. -/
theorem compile_hooks_trim_stdout_witness :
    IsTrimOf "body\x7bcolor:red\x7d".toList "body\x7bcolor:red\x7d\n".toList ∧
    sassOnLoad (fixedRunEnv (RunOutcome.exited 0 "body\x7bcolor:red\x7d\n".toList))
        { Path := "/src/styles.scss".toList, Namespace := "sass".toList } =
      ({ Contents := some "body\x7bcolor:red\x7d".toList,
         WatchFiles := ["/src/styles.scss".toList],
         Loader := Loader.LoaderText }, none) := by
  obtain ⟨content, htrim, hload⟩ :=
    (compile_hooks_trim_stdout (fixedRunEnv (RunOutcome.exited 0 "body\x7bcolor:red\x7d\n".toList))
      { Path := "/src/styles.scss".toList, Namespace := "sass".toList }
      "body\x7bcolor:red\x7d\n".toList).1 rfl
  have heval :
      sassOnLoad (fixedRunEnv (RunOutcome.exited 0 "body\x7bcolor:red\x7d\n".toList))
          { Path := "/src/styles.scss".toList, Namespace := "sass".toList } =
        ({ Contents := some "body\x7bcolor:red\x7d".toList,
           WatchFiles := ["/src/styles.scss".toList],
           Loader := Loader.LoaderText }, none) := by decide
  have hc : content = "body\x7bcolor:red\x7d".toList := by
    rw [heval] at hload
    simp only [Prod.mk.injEq, OnLoadResult.mk.injEq, Option.some.injEq] at hload
    exact hload.1.1.symm
  rw [hc] at htrim
  exact ⟨htrim, heval⟩

/-- C5: the inline load hook returns exactly the error of `os.ReadFile`; the
sass and blueprint load hooks return exactly the error of running their
command, which is non-nil exactly when the process could not be started or
ended with a non-zero status; a hook that returns an error returns the zero
result, whose contents are nil, so nothing the failed run wrote is
delivered. -/
theorem load_hooks_fail_iff_operation_fails (env : Env) (args : OnLoadArgs) :
    ((inlineOnLoad env args).2 = (env.ReadFile args.Path).2 ∧
      ((inlineOnLoad env args).2 ≠ none → (inlineOnLoad env args).1 = OnLoadResult.zero)) ∧
    ((sassOnLoad env args).2 = (Cmd.Output env (sassCmd args)).2 ∧
      ((sassOnLoad env args).2 ≠ none ↔
        (∃ e, env.run (sassCmd args) = RunOutcome.launchFailed e) ∨
        (∃ code out, code ≠ 0 ∧ env.run (sassCmd args) = RunOutcome.exited code out)) ∧
      ((sassOnLoad env args).2 ≠ none → (sassOnLoad env args).1 = OnLoadResult.zero)) ∧
    ((blpOnLoad env args).2 = (Cmd.Output env (blpCmd args)).2 ∧
      ((blpOnLoad env args).2 ≠ none ↔
        (∃ e, env.run (blpCmd args) = RunOutcome.launchFailed e) ∨
        (∃ code out, code ≠ 0 ∧ env.run (blpCmd args) = RunOutcome.exited code out)) ∧
      ((blpOnLoad env args).2 ≠ none → (blpOnLoad env args).1 = OnLoadResult.zero)) := by
  refine ⟨?_, ?_, ?_⟩
  · rcases hr : env.ReadFile args.Path with ⟨data, _ | err⟩ <;> simp [inlineOnLoad, hr]
  · rcases hr : env.run (sassCmd args) with e | ⟨code, out⟩
    · simp [sassOnLoad, Cmd.Output, hr]
    · by_cases hc : code = 0 <;> simp [sassOnLoad, Cmd.Output, hr, hc]
  · rcases hr : env.run (blpCmd args) with e | ⟨code, out⟩
    · simp [blpOnLoad, Cmd.Output, hr]
    · by_cases hc : code = 0 <;> simp [blpOnLoad, Cmd.Output, hr, hc]

/-- C6: `Bundle` ends the host process, with status 1, exactly when the error
list of the build result is non-empty, whatever the errors are; when the list
is empty it returns. -/
theorem bundle_exits_iff_errors (build : BuildOptions → BuildResult)
    (infile outfile : GoString) (opts : BundleOptions) :
    (Bundle build infile outfile opts = Termination.exits 1 ↔
      (build (bundleBuildOptions infile outfile opts)).Errors ≠ []) ∧
    (Bundle build infile outfile opts = Termination.returns ↔
      (build (bundleBuildOptions infile outfile opts)).Errors = []) ∧
    (∀ status, Bundle build infile outfile opts = Termination.exits status → status = 1) := by
  simp only [Bundle]
  cases he : (build (bundleBuildOptions infile outfile opts)).Errors with
  | nil => simp
  | cons m ms => simp

/-- C10, evaluated at the path `/styles.scss`: the command is launched with
the arguments `[p, "-I", filepath.Dir(p)]`, but its working directory `/` is
the source directory `filepath.Dir(p)` itself. -/
theorem sass_cwd_is_source_dir_at_root :
    (sassCmd { Path := "/styles.scss".toList, Namespace := "sass".toList }).Args =
      ["/styles.scss".toList, "-I".toList, filepathDir "/styles.scss".toList] ∧
    (sassCmd { Path := "/styles.scss".toList, Namespace := "sass".toList }).Dir =
      filepathDir "/styles.scss".toList := by
  decide

/-! ## First-match resolution -/

theorem pathClean_ne_nil (path : GoString) : pathClean path ≠ [] := by
  cases path with
  | nil => simp [pathClean]
  | cons c cs =>
    simp only [pathClean]
    split_ifs with h1 h2 h3
    · simp
    · intro h
      rw [h] at h2
      exact h2 rfl
    · simp
    · intro h
      rw [h] at h3
      exact h3 rfl

theorem pathJoin_eq_nil_iff (d s : GoString) : pathJoin [d, s] = [] ↔ d = [] ∧ s = [] := by
  simp only [pathJoin, List.map_cons, List.map_nil, List.sum_cons, List.sum_nil, Nat.add_zero]
  constructor
  · intro h
    split_ifs at h with h0
    · exact ⟨List.length_eq_zero.mp (by omega), List.length_eq_zero.mp (by omega)⟩
    · exact absurd h (pathClean_ne_nil _)
  · rintro ⟨rfl, rfl⟩
    simp

theorem inlineOnResolve_path_eq_nil_iff (args : OnResolveArgs)
    (hi : "inline:".toList <+: args.Path) :
    (inlineOnResolve args).1.Path = [] ↔
      args.Path = "inline:".toList ∧ args.ResolveDir = [] := by
  obtain ⟨rel, hrel⟩ := hi
  simp only [inlineOnResolve]
  rw [← hrel, stringsReplace_leading _ _ (by decide), pathJoin_eq_nil_iff]
  constructor
  · rintro ⟨hd, rfl⟩
    exact ⟨by simp, hd⟩
  · rintro ⟨hp, hd⟩
    refine ⟨hd, ?_⟩
    have := congrArg List.length hp
    simp only [List.length_append] at this
    exact List.length_eq_zero.mp (by omega)

theorem resolveAnswer_inline (args : OnResolveArgs) :
    resolveAnswer (inlineResolveOptions, inlineOnResolve) args =
      if "inline:".toList <+: args.Path ∧
          ¬ (args.Path = "inline:".toList ∧ args.ResolveDir = []) then
        some (inlineOnResolve args)
      else none := by
  rw [resolveAnswer, askResolve_inline]
  by_cases hi : "inline:".toList <+: args.Path
  · rw [if_pos hi]
    have hiff := inlineOnResolve_path_eq_nil_iff args hi
    have herr : (inlineOnResolve args).2 = none := rfl
    by_cases he : args.Path = "inline:".toList ∧ args.ResolveDir = []
    · rw [if_neg (fun hh => hh.2 he)]
      have hp : (inlineOnResolve args).1.Path = [] := hiff.mpr he
      simp [herr, hp]
    · rw [if_pos ⟨hi, he⟩]
      have hp : (inlineOnResolve args).1.Path ≠ [] := fun hh => he (hiff.mp hh)
      simp [hp]
  · rw [if_neg hi, if_neg (fun hh => hi hh.1)]

theorem resolveAnswer_sass (args : OnResolveArgs) :
    resolveAnswer (sassResolveOptions, sassOnResolve) args =
      if ".scss".toList <:+ args.Path then some (sassOnResolve args) else none := by
  rw [resolveAnswer, askResolve_sass]
  by_cases hs : ".scss".toList <:+ args.Path
  · rw [if_pos hs]
    have hp : (sassOnResolve args).1.Path ≠ [] := by
      intro hh
      have hsuf : ".scss".toList <:+ (sassOnResolve args).1.Path :=
        pathJoin_suffix _ _ _ (by decide) (by decide) hs
      rw [hh] at hsuf
      exact absurd (List.eq_nil_of_suffix_nil hsuf) (by decide)
    simp [hp]
  · rw [if_neg hs]

theorem resolveAnswer_blp (args : OnResolveArgs) :
    resolveAnswer (blpResolveOptions, blpOnResolve) args =
      if ".blp".toList <:+ args.Path then some (blpOnResolve args) else none := by
  rw [resolveAnswer, askResolve_blp]
  by_cases hs : ".blp".toList <:+ args.Path
  · rw [if_pos hs]
    have hp : (blpOnResolve args).1.Path ≠ [] := by
      intro hh
      have hsuf : ".blp".toList <:+ (blpOnResolve args).1.Path :=
        pathJoin_suffix _ _ _ (by decide) (by decide) hs
      rw [hh] at hsuf
      exact absurd (List.eq_nil_of_suffix_nil hsuf) (by decide)
    simp [hp]
  · rw [if_neg hs]

theorem firstMatch_eq_head (rules : List (OnResolveOptions ×
      (OnResolveArgs → OnResolveResult × Option GoError))) (args : OnResolveArgs) :
    firstMatch rules args = (rules.filterMap (fun reg => resolveAnswer reg args)).head? := by
  induction rules with
  | nil => rfl
  | cons reg regs ih =>
    simp only [firstMatch, List.filterMap_cons]
    cases h : resolveAnswer reg args with
    | none => simpa using ih
    | some r => simp

theorem perm_eq_of_length_le_one {α : Type} (l₁ l₂ : List α) (hp : l₁.Perm l₂)
    (hl : l₂.length ≤ 1) : l₁ = l₂ := by
  match l₂, hl with
  | [], _ => exact List.Perm.eq_nil hp
  | [a], _ => exact List.perm_singleton.mp hp

theorem resolveRules_bundlePlugins :
    resolveRules bundlePlugins =
      [(inlineResolveOptions, inlineOnResolve), (sassResolveOptions, sassOnResolve),
        (blpResolveOptions, blpOnResolve)] := rfl

theorem not_scss_and_blp (s : GoString) (h1 : ".scss".toList <:+ s)
    (h2 : ".blp".toList <:+ s) : False := by
  have h := List.suffix_of_suffix_length_le h2 h1 (by decide)
  revert h
  decide

/-- The number of rules that claim a specifier is at most one exactly when the
specifier does not both begin with `inline:` and end with `.scss` or
`.blp`. -/
theorem claims_le_one_iff (args : OnResolveArgs) :
    ((resolveRules bundlePlugins).filterMap (fun reg => askResolve reg args)).length ≤ 1 ↔
      ¬ ("inline:".toList <+: args.Path ∧
        (".scss".toList <:+ args.Path ∨ ".blp".toList <:+ args.Path)) := by
  rw [resolveRules_bundlePlugins]
  simp only [List.filterMap_cons, List.filterMap_nil, askResolve_inline, askResolve_sass,
    askResolve_blp]
  by_cases hi : "inline:".toList <+: args.Path
  · by_cases hs : ".scss".toList <:+ args.Path
    · have hb : ¬ ".blp".toList <:+ args.Path := fun hb => not_scss_and_blp _ hs hb
      rw [if_pos hi, if_pos hs, if_neg hb]
      exact ⟨fun h => by simp at h, fun h => absurd ⟨hi, Or.inl hs⟩ h⟩
    · by_cases hb : ".blp".toList <:+ args.Path
      · rw [if_pos hi, if_neg hs, if_pos hb]
        exact ⟨fun h => by simp at h, fun h => absurd ⟨hi, Or.inr hb⟩ h⟩
      · rw [if_pos hi, if_neg hs, if_neg hb]
        exact ⟨fun _ hh => hh.2.elim hs hb, fun _ => by simp⟩
  · by_cases hs : ".scss".toList <:+ args.Path
    · have hb : ¬ ".blp".toList <:+ args.Path := fun hb => not_scss_and_blp _ hs hb
      rw [if_neg hi, if_pos hs, if_neg hb]
      exact ⟨fun _ hh => hi hh.1, fun _ => by simp⟩
    · by_cases hb : ".blp".toList <:+ args.Path
      · rw [if_neg hi, if_neg hs, if_pos hb]
        exact ⟨fun _ hh => hi hh.1, fun _ => by simp⟩
      · rw [if_neg hi, if_neg hs, if_neg hb]
        exact ⟨fun _ hh => hi hh.1, fun _ => by simp⟩

theorem answers_le_one (args : OnResolveArgs)
    (h : ¬ ("inline:".toList <+: args.Path ∧
      (".scss".toList <:+ args.Path ∨ ".blp".toList <:+ args.Path))) :
    ((resolveRules bundlePlugins).filterMap (fun reg => resolveAnswer reg args)).length ≤ 1 := by
  rw [resolveRules_bundlePlugins]
  simp only [List.filterMap_cons, List.filterMap_nil, resolveAnswer_inline, resolveAnswer_sass,
    resolveAnswer_blp]
  by_cases hi : "inline:".toList <+: args.Path
  · have hs : ¬ ".scss".toList <:+ args.Path := fun hs => h ⟨hi, Or.inl hs⟩
    have hb : ¬ ".blp".toList <:+ args.Path := fun hb => h ⟨hi, Or.inr hb⟩
    rw [if_neg hs, if_neg hb]
    split_ifs <;> simp
  · by_cases hs : ".scss".toList <:+ args.Path
    · have hb : ¬ ".blp".toList <:+ args.Path := fun hb => not_scss_and_blp _ hs hb
      rw [if_neg (fun hh => hi hh.1), if_pos hs, if_neg hb]
      simp
    · by_cases hb : ".blp".toList <:+ args.Path
      · rw [if_neg (fun hh => hi hh.1), if_neg hs, if_pos hb]
        simp
      · rw [if_neg (fun hh => hi hh.1), if_neg hs, if_neg hb]
        simp

/-- C7 as stated fails: the specifier `inline:style.scss` is claimed by the
inline rule and by the sass rule, and first-match resolution answers
differently when the sass rule is asked before the inline rule. -/
theorem first_match_depends_on_order :
    (askResolve (inlineResolveOptions, inlineOnResolve)
      { Path := "inline:style.scss".toList, Namespace := [], ResolveDir := "/src".toList }).isSome
      = true ∧
    (askResolve (sassResolveOptions, sassOnResolve)
      { Path := "inline:style.scss".toList, Namespace := [], ResolveDir := "/src".toList }).isSome
      = true ∧
    firstMatch (resolveRules [inlinePlugin, sassPlugin, blpPlugin])
      { Path := "inline:style.scss".toList, Namespace := [], ResolveDir := "/src".toList } =
      some ({ Path := "/src/style.scss".toList, Namespace := "inline".toList }, none) ∧
    firstMatch (resolveRules [sassPlugin, inlinePlugin, blpPlugin])
      { Path := "inline:style.scss".toList, Namespace := [], ResolveDir := "/src".toList } =
      some ({ Path := "/src/inline:style.scss".toList, Namespace := "sass".toList }, none) := by
  decide

/-- C7, amended: at most one of the three resolve rules claims a specifier
exactly when the specifier does not both begin with `inline:` and end with
`.scss` or `.blp`; for such a specifier first-match resolution gives the same
outcome for every ordering of the three rules.  In the registered order the
inline rule answers every specifier that begins with `inline:`, also one that
an extension rule claims as well, with the one exception of the specifier
`inline:` in an empty importer directory, whose empty path esbuild takes for a
decline, so that no rule answers. -/
theorem first_match_order_independent (args : OnResolveArgs) :
    (((resolveRules bundlePlugins).filterMap (fun reg => askResolve reg args)).length ≤ 1 ↔
      ¬ ("inline:".toList <+: args.Path ∧
        (".scss".toList <:+ args.Path ∨ ".blp".toList <:+ args.Path))) ∧
    (¬ ("inline:".toList <+: args.Path ∧
        (".scss".toList <:+ args.Path ∨ ".blp".toList <:+ args.Path)) →
      ∀ rules, rules.Perm (resolveRules bundlePlugins) →
        firstMatch rules args = firstMatch (resolveRules bundlePlugins) args) ∧
    ("inline:".toList <+: args.Path →
      ¬ (args.Path = "inline:".toList ∧ args.ResolveDir = []) →
      firstMatch (resolveRules bundlePlugins) args = some (inlineOnResolve args)) ∧
    (args.Path = "inline:".toList ∧ args.ResolveDir = [] →
      firstMatch (resolveRules bundlePlugins) args = none) := by
  refine ⟨claims_le_one_iff args, ?_, ?_, ?_⟩
  · intro h rules hp
    rw [firstMatch_eq_head, firstMatch_eq_head]
    rw [perm_eq_of_length_le_one _ _ (hp.filterMap _) (answers_le_one args h)]
  · intro hi he
    rw [resolveRules_bundlePlugins]
    simp only [firstMatch, resolveAnswer_inline, if_pos (And.intro hi he)]
  · intro he
    have hs : ¬ ".scss".toList <:+ args.Path := by
      rw [he.1]
      decide
    have hb : ¬ ".blp".toList <:+ args.Path := by
      rw [he.1]
      decide
    rw [resolveRules_bundlePlugins]
    simp only [firstMatch, resolveAnswer_inline, resolveAnswer_sass, resolveAnswer_blp]
    rw [if_neg (fun hh => hh.2 he), if_neg hs, if_neg hb]

/-- C7, amended, at concrete inputs: `./style.scss` is claimed by the sass rule
alone, and asking the blueprint rule first and the inline rule last changes
nothing; `inline:style.scss`, which the sass rule claims as well, is answered
by the inline rule in the registered order. -/
theorem first_match_order_independent_witness :
    firstMatch [(blpResolveOptions, blpOnResolve), (sassResolveOptions, sassOnResolve),
        (inlineResolveOptions, inlineOnResolve)]
      { Path := "./style.scss".toList, Namespace := [], ResolveDir := "/src".toList } =
    firstMatch (resolveRules bundlePlugins)
      { Path := "./style.scss".toList, Namespace := [], ResolveDir := "/src".toList } ∧
    firstMatch (resolveRules bundlePlugins)
      { Path := "inline:style.scss".toList, Namespace := [], ResolveDir := "/src".toList } =
    some (inlineOnResolve
      { Path := "inline:style.scss".toList, Namespace := [], ResolveDir := "/src".toList }) :=
  ⟨(first_match_order_independent
      { Path := "./style.scss".toList, Namespace := [], ResolveDir := "/src".toList }).2.1
      (by decide) _ (by
        rw [resolveRules_bundlePlugins]
        exact (List.Perm.swap _ _ _).trans ((List.Perm.swap _ _ _).cons _ |>.trans
          (List.Perm.swap _ _ _))),
    (first_match_order_independent
      { Path := "inline:style.scss".toList, Namespace := [],
        ResolveDir := "/src".toList }).2.2.1 (by decide) (by decide)⟩

/-! ## From resolve rule to load hook -/

theorem acceptsLoad_sass (r : OnResolveResult) :
    acceptsLoad sassLoadOptions r =
      (decide (r.Namespace = "sass".toList) && decide (".scss".toList <:+ r.Path)) := by
  simp only [acceptsLoad, pluginAppliesToPath, sassLoadOptions, sassFilter]
  have h0 : decide ("sass".toList = ([] : GoString)) = false := by decide
  rw [h0, Bool.false_or]
  congr 1
  rw [Bool.eq_iff_iff, matchString_suffix, decide_eq_true_iff]

theorem acceptsLoad_blp (r : OnResolveResult) :
    acceptsLoad blpLoadOptions r =
      (decide (r.Namespace = "blueprint".toList) && decide (".blp".toList <:+ r.Path)) := by
  simp only [acceptsLoad, pluginAppliesToPath, blpLoadOptions, blpFilter]
  have h0 : decide ("blueprint".toList = ([] : GoString)) = false := by decide
  rw [h0, Bool.false_or]
  congr 1
  rw [Bool.eq_iff_iff, matchString_suffix, decide_eq_true_iff]

theorem loadHookOwners_bundlePlugins (r : OnResolveResult) :
    loadHookOwners bundlePlugins r =
      (if acceptsLoad inlineLoadOptions r then ["inline".toList] else []) ++
      ((if acceptsLoad sassLoadOptions r then ["sass".toList] else []) ++
      (if acceptsLoad blpLoadOptions r then ["blueprint".toList] else [])) := by
  simp only [loadHookOwners, bundlePlugins, inlinePlugin, sassPlugin, blpPlugin,
    List.filter_cons, List.filter_nil, List.any_cons, List.any_nil, Bool.or_false]
  cases acceptsLoad inlineLoadOptions r <;> cases acceptsLoad sassLoadOptions r <;>
    cases acceptsLoad blpLoadOptions r <;> rfl

/-- C8: whichever of the three resolve rules claims a specifier, the module
it returns is accepted by the load hook of exactly one registered plugin, the
plugin of that rule: the returned namespace is that hook's namespace and the
returned path matches that hook's filter.  In particular joining the importer
directory with a specifier that ends with `.scss` or `.blp` gives a path that
still ends with `.scss` or `.blp`. -/
theorem resolved_module_has_one_load_hook (args : OnResolveArgs) :
    (∀ p ∈ bundlePlugins, ∀ reg ∈ p.OnResolve, ∀ r, askResolve reg args = some r →
      loadHookOwners bundlePlugins r.1 = [p.Name] ∧
      ∀ l ∈ p.OnLoad, r.1.Namespace = l.1.Namespace ∧
        l.1.Filter.MatchString r.1.Path = true) ∧
    (".scss".toList <:+ args.Path →
      ".scss".toList <:+ pathJoin [args.ResolveDir, args.Path]) ∧
    (".blp".toList <:+ args.Path →
      ".blp".toList <:+ pathJoin [args.ResolveDir, args.Path]) := by
  have hscss : ".scss".toList <:+ args.Path →
      ".scss".toList <:+ pathJoin [args.ResolveDir, args.Path] :=
    pathJoin_suffix _ _ _ (by decide) (by decide)
  have hblp : ".blp".toList <:+ args.Path →
      ".blp".toList <:+ pathJoin [args.ResolveDir, args.Path] :=
    pathJoin_suffix _ _ _ (by decide) (by decide)
  refine ⟨?_, hscss, hblp⟩
  intro p hp reg hreg r hr
  simp only [bundlePlugins, List.mem_cons, List.mem_singleton, List.not_mem_nil,
    or_false] at hp
  rcases hp with rfl | rfl | rfl
  · simp only [inlinePlugin, List.mem_singleton] at hreg
    subst hreg
    rw [askResolve_inline] at hr
    split at hr
    · simp only [Option.some.injEq] at hr
      subst hr
      have hns : (inlineOnResolve args).1.Namespace = "inline".toList := rfl
      refine ⟨?_, ?_⟩
      · rw [loadHookOwners_bundlePlugins, acceptsLoad_inline, acceptsLoad_sass,
          acceptsLoad_blp, hns]
        rfl
      · intro l hl
        simp only [inlinePlugin, List.mem_singleton] at hl
        subst hl
        exact ⟨hns, matchString_dotStar _⟩
    · simp at hr
  · simp only [sassPlugin, List.mem_singleton] at hreg
    subst hreg
    rw [askResolve_sass] at hr
    split at hr
    · rename_i hs
      simp only [Option.some.injEq] at hr
      subst hr
      have hns : (sassOnResolve args).1.Namespace = "sass".toList := rfl
      have hpath : ".scss".toList <:+ (sassOnResolve args).1.Path := hscss hs
      refine ⟨?_, ?_⟩
      · rw [loadHookOwners_bundlePlugins, acceptsLoad_inline, acceptsLoad_sass,
          acceptsLoad_blp, hns, decide_eq_true hpath]
        rfl
      · intro l hl
        simp only [sassPlugin, List.mem_singleton] at hl
        subst hl
        exact ⟨hns, (matchString_suffix _ _).mpr hpath⟩
    · simp at hr
  · simp only [blpPlugin, List.mem_singleton] at hreg
    subst hreg
    rw [askResolve_blp] at hr
    split at hr
    · rename_i hs
      simp only [Option.some.injEq] at hr
      subst hr
      have hns : (blpOnResolve args).1.Namespace = "blueprint".toList := rfl
      have hpath : ".blp".toList <:+ (blpOnResolve args).1.Path := hblp hs
      refine ⟨?_, ?_⟩
      · rw [loadHookOwners_bundlePlugins, acceptsLoad_inline, acceptsLoad_sass,
          acceptsLoad_blp, hns, decide_eq_true hpath]
        rfl
      · intro l hl
        simp only [blpPlugin, List.mem_singleton] at hl
        subst hl
        exact ⟨hns, (matchString_suffix _ _).mpr hpath⟩
    · simp at hr

/-- C8 at a concrete input: `../theme/./main.scss` imported from `/src/ui` is
claimed by the sass rule, resolved to `/src/theme/main.scss`, and accepted by
the sass load hook alone. -/
theorem resolved_module_has_one_load_hook_witness :
    askResolve (sassResolveOptions, sassOnResolve)
      { Path := "../theme/./main.scss".toList, Namespace := [],
        ResolveDir := "/src/ui".toList } =
      some ({ Path := "/src/theme/main.scss".toList, Namespace := "sass".toList }, none) ∧
    loadHookOwners bundlePlugins
      { Path := "/src/theme/main.scss".toList, Namespace := "sass".toList } =
      ["sass".toList] := by
  have hr : askResolve (sassResolveOptions, sassOnResolve)
      { Path := "../theme/./main.scss".toList, Namespace := [],
        ResolveDir := "/src/ui".toList } =
      some ({ Path := "/src/theme/main.scss".toList, Namespace := "sass".toList }, none) := by
    decide
  exact ⟨hr, ((resolved_module_has_one_load_hook
    { Path := "../theme/./main.scss".toList, Namespace := [],
      ResolveDir := "/src/ui".toList }).1 sassPlugin (by simp [bundlePlugins])
    (sassResolveOptions, sassOnResolve) (by simp [sassPlugin]) _ hr).1⟩

/-! ## The external allowlist -/

theorem takeWhile_star (pre : GoString) (h : '*' ∉ pre) :
    (pre ++ ['*']).takeWhile (fun x => decide (x ≠ '*')) = pre := by
  induction pre with
  | nil => simp
  | cons c cs ih =>
    have hc : c ≠ '*' := fun e => h (e ▸ List.mem_cons_self _ _)
    have hcs : '*' ∉ cs := fun e => h (List.mem_cons_of_mem _ e)
    simpa [List.takeWhile_cons, hc] using ih hcs

theorem dropWhile_star (pre : GoString) (h : '*' ∉ pre) :
    (pre ++ ['*']).dropWhile (fun x => decide (x ≠ '*')) = ['*'] := by
  induction pre with
  | nil => simp
  | cons c cs ih =>
    have hc : c ≠ '*' := fun e => h (e ▸ List.mem_cons_self _ _)
    have hcs : '*' ∉ cs := fun e => h (List.mem_cons_of_mem _ e)
    simpa [List.dropWhile_cons, hc] using ih hcs

theorem externalMatches_star (pre s : GoString) (h : '*' ∉ pre) :
    externalMatches (pre ++ ['*']) s = true ↔ pre <+: s := by
  have hmem : '*' ∈ pre ++ ['*'] := by simp
  rw [externalMatches, if_pos hmem]
  simp only [takeWhile_star pre h, dropWhile_star pre h, List.drop_succ_cons, List.drop_zero,
    List.length_nil, Nat.add_zero, Bool.and_eq_true, decide_eq_true_iff,
    List.isPrefixOf_iff_prefix, List.isSuffixOf_iff_suffix]
  constructor
  · intro hh
    exact hh.1.2
  · intro hh
    exact ⟨⟨hh.length_le, hh⟩, List.nil_suffix⟩

theorem externalMatches_exact (pattern s : GoString) (h : '*' ∉ pattern) :
    externalMatches pattern s = true ↔ s = pattern := by
  rw [externalMatches, if_neg h, decide_eq_true_iff]

/-- The allowlist of `Bundle` matches the four names `console`, `system`,
`cairo`, `gettext` and every specifier that begins with `file://`, `gi://` or
`resource://`, and nothing else. -/
theorem isExternal_bundleExternal (s : GoString) :
    isExternal bundleExternal s = true ↔
      s = "console".toList ∨ s = "system".toList ∨ s = "cairo".toList ∨
      s = "gettext".toList ∨ "file://".toList <+: s ∨ "gi://".toList <+: s ∨
      "resource://".toList <+: s := by
  have h1 := externalMatches_exact "console".toList s (by decide)
  have h2 := externalMatches_exact "system".toList s (by decide)
  have h3 := externalMatches_exact "cairo".toList s (by decide)
  have h4 := externalMatches_exact "gettext".toList s (by decide)
  have h5 : externalMatches "file://*".toList s = true ↔ "file://".toList <+: s :=
    externalMatches_star "file://".toList s (by decide)
  have h6 : externalMatches "gi://*".toList s = true ↔ "gi://".toList <+: s :=
    externalMatches_star "gi://".toList s (by decide)
  have h7 : externalMatches "resource://*".toList s = true ↔ "resource://".toList <+: s :=
    externalMatches_star "resource://".toList s (by decide)
  simp only [isExternal, bundleExternal, List.any_cons, List.any_nil, Bool.or_false,
    Bool.or_eq_true, h1, h2, h3, h4, h5, h6, h7]

theorem inline_not_external (s : GoString) (he : isExternal bundleExternal s = true) :
    ¬ "inline:".toList <+: s := by
  intro hi
  rw [isExternal_bundleExternal] at he
  rcases he with rfl | rfl | rfl | rfl | h | h | h
  · revert hi; decide
  · revert hi; decide
  · revert hi; decide
  · revert hi; decide
  · have := List.prefix_of_prefix_length_le hi h (by decide)
    revert this; decide
  · have := List.prefix_of_prefix_length_le h hi (by decide)
    revert this; decide
  · have := List.prefix_of_prefix_length_le hi h (by decide)
    revert this; decide

/-- C9 as stated fails: `resource:///org/app/style.scss` matches the
allowlist entry `resource://*`, yet the sass rule claims it and rewrites it to
a path in namespace `sass`. -/
theorem external_specifier_claimed_by_sass :
    isExternal bundleExternal "resource:///org/app/style.scss".toList = true ∧
    firstMatch (resolveRules bundlePlugins)
      { Path := "resource:///org/app/style.scss".toList, Namespace := [],
        ResolveDir := "/src".toList } =
      some ({ Path := "/src/resource:/org/app/style.scss".toList,
              Namespace := "sass".toList }, none) := by
  decide

/-- C9, amended: a specifier that matches the allowlist is claimed by none of
the three resolve rules exactly when it ends with neither `.scss` nor `.blp`;
the inline rule never claims it, and the four names `console`, `system`,
`cairo`, `gettext` are claimed by no rule. -/
theorem external_claimed_only_by_extension (args : OnResolveArgs)
    (he : isExternal bundleExternal args.Path = true) :
    (firstMatch (resolveRules bundlePlugins) args = none ↔
      ¬ ".scss".toList <:+ args.Path ∧ ¬ ".blp".toList <:+ args.Path) ∧
    askResolve (inlineResolveOptions, inlineOnResolve) args = none ∧
    (args.Path ∈ ["console".toList, "system".toList, "cairo".toList, "gettext".toList] →
      firstMatch (resolveRules bundlePlugins) args = none) := by
  have hi : ¬ "inline:".toList <+: args.Path := inline_not_external _ he
  have hfm : firstMatch (resolveRules bundlePlugins) args = none ↔
      ¬ ".scss".toList <:+ args.Path ∧ ¬ ".blp".toList <:+ args.Path := by
    rw [resolveRules_bundlePlugins]
    simp only [firstMatch, resolveAnswer_inline, resolveAnswer_sass, resolveAnswer_blp]
    rw [if_neg (fun hh => hi hh.1)]
    by_cases hs : ".scss".toList <:+ args.Path
    · rw [if_pos hs]
      exact ⟨fun h => by simp at h, fun h => absurd hs h.1⟩
    · rw [if_neg hs]
      by_cases hb : ".blp".toList <:+ args.Path
      · rw [if_pos hb]
        exact ⟨fun h => by simp at h, fun h => absurd hb h.2⟩
      · rw [if_neg hb]
        exact ⟨fun _ => ⟨hs, hb⟩, fun _ => rfl⟩
  refine ⟨hfm, ?_, ?_⟩
  · rw [askResolve_inline, if_neg hi]
  · intro hm
    rw [hfm]
    simp only [List.mem_cons, List.mem_singleton, List.not_mem_nil, or_false] at hm
    rcases hm with h | h | h | h <;> rw [h] <;> decide

/-- C9, amended, at a concrete input: `gi://Gtk` matches the allowlist and no
resolve rule claims it. -/
theorem external_claimed_only_by_extension_witness :
    isExternal bundleExternal "gi://Gtk".toList = true ∧
    firstMatch (resolveRules bundlePlugins)
      { Path := "gi://Gtk".toList, Namespace := [], ResolveDir := "/src".toList } = none :=
  ⟨by decide,
    (external_claimed_only_by_extension
      { Path := "gi://Gtk".toList, Namespace := [], ResolveDir := "/src".toList }
      (by decide)).1.mpr (by decide)⟩

end Ags
